import Mathlib

/-!
Verification development for the repository's parse-and-pipeline engine
(`backend/app/graph/nodes/`): the language classifier, exclusion filter,
in-memory repository walker, comment-stripping phase of the syntax-tree
extractor, LLM retry wrappers, the summarize / generate-readme / analyze
pipeline stages, and the analysis-response parser.

The Python source is shallowly embedded: pure Python functions become Lean
functions over `String` / `List Char` / `List UInt8`; Python exceptions
become `Except`; Python dicts become association lists (insertion-ordered,
like CPython dicts) or update functions; the external tree-sitter parser
and the external LLM collaborator are parameters (oracles), since they are
out-of-scope collaborators of the core.
-/

namespace Rep

/-- A char is counted as Python ASCII whitespace (`str.strip` / `\s`).
(Python also strips some further Unicode whitespace; the sources here are
ASCII, so this is the relevant fragment.) -/
def isPySpace (c : Char) : Bool :=
  c = ' ' || c = '\t' || c = '\n' || c = '\r' || c = '\x0b' || c = '\x0c'

/-- Python `str.strip()` on a char list: drop whitespace from both ends. -/
def stripChars (l : List Char) : List Char :=
  ((l.dropWhile isPySpace).reverse.dropWhile isPySpace).reverse

/-- Python `str.strip()`. -/
def pyStrip (s : String) : String :=
  String.mk (stripChars s.data)

/-- Python `str.strip(chars)`: drop any of the given chars from both ends. -/
def pyStripSet (cs : List Char) (s : String) : String :=
  String.mk (((s.data.dropWhile (cs.contains ·)).reverse.dropWhile (cs.contains ·)).reverse)

/-- Python `str.lstrip(chars)`: drop any of the given chars from the left end. -/
def pyLstripSet (cs : List Char) (s : String) : String :=
  String.mk (s.data.dropWhile (cs.contains ·))

/-- Python `ext in s` / `str.endswith(ext)` is a plain suffix test. -/
def endswith (s ext : String) : Bool :=
  ext.data.isSuffixOf s.data

/-- Python `str.startswith(p)` is a plain prefix test. -/
def startswith (s p : String) : Bool :=
  p.data.isPrefixOf s.data

/-- Substring search on char lists: `sub` occurs contiguously in the list. -/
def listInfixB (sub : List Char) : List Char → Bool
  | [] => sub.isEmpty
  | c :: cs => sub.isPrefixOf (c :: cs) || listInfixB sub cs

/-- Python `sub in s`: substring containment. -/
def containsSub (s sub : String) : Bool :=
  listInfixB sub.data s.data

/-- Worker for Python `s.split(sep)`: `skip` counts the remaining characters
of an already recognized separator occurrence still to be discarded (a
boundary `[]` piece was emitted at recognition time). -/
def splitAux (sep : List Char) : List Char → Nat → List (List Char)
  | [], _ => [[]]
  | _ :: cs, skip + 1 => splitAux sep cs skip
  | c :: cs, 0 =>
    if sep ≠ [] ∧ sep.isPrefixOf (c :: cs) then
      [] :: splitAux sep cs (sep.length - 1)
    else
      match splitAux sep cs 0 with
      | [] => [[c]]
      | y :: ys => (c :: y) :: ys

/-- Python `s.split(sep)` for a nonempty multi-char separator: split at each
leftmost non-overlapping occurrence. `splitOnSub sep [] = [[]]`, matching
`"".split(sep) == ['']`. -/
def splitOnSub (sep l : List Char) : List (List Char) :=
  splitAux sep l 0

/-- Python `s.split(sep)` on strings. -/
def pySplitStr (sep s : String) : List String :=
  (splitOnSub sep.data s.data).map String.mk

/-- Python `s.replace(old, new)` (all non-overlapping occurrences,
left to right), for nonempty `old`. -/
def pyReplace (s old new : String) : String :=
  String.intercalate new (pySplitStr old s)

/-- Python `s.split(sep)` for a single-char separator, on char lists.
`splitOnChar c [] = [[]]`, matching `"".split(c) == ['']`. -/
def splitOnChar (c : Char) : List Char → List (List Char)
  | [] => [[]]
  | x :: xs =>
    match splitOnChar c xs with
    | [] => [[]]
    | y :: ys => if x = c then [] :: y :: ys else (x :: y) :: ys

/-- Python `str.splitlines()` for `\n`-separated text: split on newlines and
drop the trailing empty piece produced by a final newline; `""` gives `[]`.
(Python also splits on `\r` and other line boundaries; the pipeline's inputs
use `\n`.) -/
def splitlines (s : String) : List String :=
  if s.data = [] then []
  else
    let parts := splitOnChar '\n' s.data
    let parts := if parts.getLast? = some [] then parts.dropLast else parts
    parts.map String.mk

/-- Python `str.lower()` (ASCII fragment of Unicode lowercasing). -/
def pyLower (s : String) : String :=
  String.mk (s.data.map Char.toLower)

/-- Python `str.upper()` (ASCII fragment of Unicode uppercasing). -/
def pyUpper (s : String) : String :=
  String.mk (s.data.map Char.toUpper)

/-! ## Language classifier and exclusion filter
(`parse_code_memory.py`, identical tables in `parse_code.py`) -/

/-- `LANGUAGE_EXTENSIONS`: the static, insertion-ordered language → extensions
table (`parse_code_memory.py` lines 34-46). -/
def LANGUAGE_EXTENSIONS : List (String × List String) :=
  [ ("python", [".py"]),
    ("java", [".java"]),
    ("javascript", [".js"]),
    ("typescript", [".ts"]),
    ("tsx", [".tsx"]),
    ("html", [".html"]),
    ("css", [".css"]),
    ("c", [".c", ".h"]),
    ("cpp", [".cpp", ".cc", ".cxx", ".hpp", ".h"]),
    ("go", [".go"]),
    ("kotlin", [".kt"]) ]

/-- `detect_language`: first language in table order with a matching
extension suffix, else `none` (`parse_code_memory.py` lines 87-92). -/
def detect_language (file_name : String) : Option String :=
  (LANGUAGE_EXTENSIONS.find? (fun le => le.2.any (fun ext => endswith file_name ext))).map
    (fun le => le.1)

/-- `EXCLUDED_FILES` (`parse_code_memory.py` lines 48-77). -/
def EXCLUDED_FILES : List String :=
  [ "package.json", "package-lock.json", "yarn.lock", "pnpm-lock.yaml", "bun.lockb",
    "vite.config.ts", "vite.config.js", "webpack.config.js", "rollup.config.js",
    "esbuild.config.js", "snowpack.config.js", "metro.config.js", "vite-env.d.ts",
    "tsconfig.json", "tsconfig.app.json", "tsconfig.node.json", "tsconfig.base.json",
    "tslint.json", "eslint.config.js", ".eslintrc.js", ".eslintrc.json", ".prettierrc",
    ".prettierrc.js",
    ".prettierrc.json", ".stylelintrc", ".stylelintrc.json", "stylelint.config.js",
    "tailwind.config.js", "postcss.config.js", "babel.config.js", ".babelrc", ".babelrc.js",
    "index.html", "favicon.ico", "robots.txt", "sitemap.xml",
    ".editorconfig", ".gitignore", ".gitattributes", ".npmrc", ".nvmrc", ".dockerignore",
    ".env", ".env.local", ".env.development", ".env.production", ".env.test",
    "jest.config.js", "jest.config.ts", "karma.conf.js", "mocha.opts", "vitest.config.ts",
    "cypress.config.js", "cypress.json", ".coveragerc", "tox.ini", "pytest.ini", "setup.cfg",
    "vercel.json", "netlify.toml", "now.json", "firebase.json", "azure-pipelines.yml",
    "Procfile", "Makefile", "Dockerfile", "docker-compose.yml", ".travis.yml",
    ".circleci/config.yml", ".github/workflows/main.yml", ".gitlab-ci.yml",
    "README.md", "README", "CONTRIBUTING.md", "CHANGELOG.md", "CODEOWNERS",
    "LICENSE", "LICENSE.md", "SECURITY.md", "SUPPORT.md", "NOTICE", "AUTHORS",
    "requirements.txt", "Pipfile", "Pipfile.lock", "pyproject.toml", "setup.py", "MANIFEST.in",
    "environment.yml", "conda.yml", ".python-version", ".pylintrc",
    "mypy.ini", "pyrightconfig.json", ".flake8", ".isort.cfg",
    "mlruns", "dvc.yaml", "dvc.lock", ".dvc", "wandb", ".mlflow", ".mlem", "output.log",
    "checkpoints", "runs", "events.out.tfevents.*", "tensorboard.log", "lightning_logs",
    ".ipynb_checkpoints", "*.ipynb",
    "yarn-error.log", "npm-debug.log", "snapshot.txt", "poetry.lock", "poetry.toml",
    "terraform.tf", "terraform.tfvars", "*.tfstate", "*.tfstate.backup",
    "cloudbuild.yaml", ".helmignore", "Chart.yaml", "values.yaml",
    "kustomization.yaml", "skaffold.yaml",
    ".DS_Store", "Thumbs.db", "desktop.ini" ]

/-- `EXCLUDED_FOLDERS` (`parse_code_memory.py` lines 79-84). -/
def EXCLUDED_FOLDERS : List String :=
  [ "node_modules", "venv", ".venv", "env", ".env",
    ".git", ".idea", ".vscode", "__pycache__",
    "dist", "build", ".next", "out", ".parcel-cache",
    "coverage", "logs", "tmp", "temp" ]

/-- `os.path.basename` for `/`-separated paths: the part after the last `/`
(equivalently the last piece of `split('/')`). -/
def basename (p : String) : String :=
  String.mk ((splitOnChar '/' p.data).getLastD [])

/-- `should_exclude_file` (`parse_code_memory.py` lines 95-108): excluded
filename, or any `/`-separated path segment in the excluded-folder set. -/
def should_exclude_file (file_path : String) : Bool :=
  EXCLUDED_FILES.contains (basename file_path)
  || ((splitOnChar '/' file_path.data).map String.mk).any
      (fun part => EXCLUDED_FOLDERS.contains part)

/-! ## In-memory repository walker (`parse_code_from_memory`) -/

/-- One parsed file: the dict built at `parse_code_memory.py` lines 200-205. -/
structure FileRecord where
  file : String
  code : String
  type : String
  contains : List String
  deriving Repr, DecidableEq

/-- `parse_code_from_memory` (`parse_code_memory.py` lines 174-211), with the
tree-sitter-backed `extract_names_and_clean` abstracted as the `extract`
parameter (language, source ↦ names and cleaned code, or a raised exception):
skip excluded files, skip undetected languages, and per-file `try/except`
that drops the file on an extraction exception. -/
def parse_code_from_memory
    (extract : String → String → Except String (List String × String)) :
    List (String × String) → List (String × FileRecord)
  | [] => []
  | (file_path, source_code) :: rest =>
    if should_exclude_file file_path then parse_code_from_memory extract rest
    else
      match detect_language file_path with
      | none => parse_code_from_memory extract rest
      | some lang =>
        match extract lang source_code with
        | .ok (contains, cleaned_code) =>
          (file_path, ⟨file_path, cleaned_code, lang, contains⟩)
            :: parse_code_from_memory extract rest
        | .error _ => parse_code_from_memory extract rest

/-- The per-file loop of the disk walker `walk_folder` (`parse_code.py`
lines 158-201). The `os.walk` traversal with its directory pruning
(`EXCLUDED_FOLDERS`, `is_virtual_env`) is disk I/O, abstracted as the
flattened list of `(file, rel_path, read result)` entries the loop visits;
opening/reading the file is likewise external, so each entry carries its
read outcome. Faithful to the source's control flow: the filename exclusion
and language checks `continue`; the `try/except` wraps **only** the file
read (a failed read is logged and skipped); the `extract_names_and_clean`
call at line 192 is outside it, so an extraction exception propagates out
of `walk_folder` (modelled as the `Except.error` result). -/
def walk_folder_files
    (extract : String → String → Except String (List String × String)) :
    List (String × String × Except String String) →
      Except String (List (String × FileRecord))
  | [] => .ok []
  | (file, rel_path, readResult) :: rest =>
    if EXCLUDED_FILES.contains file then walk_folder_files extract rest
    else
      match detect_language file with
      | none => walk_folder_files extract rest
      | some lang =>
        match readResult with
        | .error _ => walk_folder_files extract rest
        | .ok source_code =>
          match extract lang source_code with
          | .error e => .error e
          | .ok (contains, cleaned_code) =>
            (walk_folder_files extract rest).map
              (fun struct =>
                (rel_path, ⟨rel_path, cleaned_code, lang, contains⟩) :: struct)

/-! ## Helper lemmas -/

/-- `List.find?` returning `some x` decomposes the list around the first hit. -/
theorem find?_eq_some_decomp {α : Type} (p : α → Bool) (l : List α) (x : α) :
    l.find? p = some x ↔
      ∃ l₁ l₂, l = l₁ ++ x :: l₂ ∧ p x = true ∧ ∀ y ∈ l₁, p y = false := by
  induction l with
  | nil => simp
  | cons a l ih =>
    cases ha : p a with
    | true =>
      rw [List.find?_cons_of_pos _ ha]
      constructor
      · rintro ⟨rfl⟩
        exact ⟨[], l, rfl, ha, by simp⟩
      · rintro ⟨l₁, l₂, heq, hx, hfst⟩
        cases l₁ with
        | nil => simp_all
        | cons b l₁ =>
          have hb : p b = false := hfst b (by simp)
          have : a = b := by simpa using congrArg (fun t => t.head?) heq
          rw [this, hb] at ha
          exact absurd ha (by simp)
    | false =>
      rw [List.find?_cons_of_neg _ (by simp [ha])]
      rw [ih]
      constructor
      · rintro ⟨l₁, l₂, rfl, hx, hfst⟩
        exact ⟨a :: l₁, l₂, rfl, hx, by
          intro y hy
          rcases List.mem_cons.mp hy with rfl | hy
          · exact ha
          · exact hfst y hy⟩
      · rintro ⟨l₁, l₂, heq, hx, hfst⟩
        cases l₁ with
        | nil =>
          simp only [List.nil_append] at heq
          cases heq
          rw [hx] at ha
          exact absurd ha (by simp)
        | cons b l₁ =>
          simp only [List.cons_append, List.cons.injEq] at heq
          exact ⟨l₁, l₂, heq.2, hx, fun y hy => hfst y (by simp [hy])⟩

/-- A suffix match fixes the last character of the whole string. -/
theorem endswith_getLast (s ext : String) (h : endswith s ext = true)
    (hne : ext.data ≠ []) : s.data.getLast? = ext.data.getLast? := by
  have hsuf : ext.data <:+ s.data := List.isSuffixOf_iff_suffix.mp h
  obtain ⟨t, ht⟩ := hsuf
  rcases ext.data.eq_nil_or_concat with h' | ⟨l, c, hlc⟩
  · exact absurd h' hne
  · rw [← ht, hlc]
    simp [List.concat_eq_append, ← List.append_assoc, List.getLast?_concat]

/-- Two extensions with different final characters cannot both be suffixes. -/
theorem endswith_last_ne (s e₁ e₂ : String) (c₁ c₂ : Char)
    (h₁ : e₁.data.getLast? = some c₁) (h₂ : e₂.data.getLast? = some c₂)
    (hcc : c₁ ≠ c₂) (hs : endswith s e₁ = true) : endswith s e₂ = false := by
  cases he : endswith s e₂ with
  | false => rfl
  | true =>
    have g₁ := endswith_getLast s e₁ hs (by rintro h; rw [h] at h₁; simp at h₁)
    have g₂ := endswith_getLast s e₂ he (by rintro h; rw [h] at h₂; simp at h₂)
    rw [h₁] at g₁; rw [h₂] at g₂
    rw [g₁] at g₂
    exact absurd (Option.some.injEq .. ▸ g₂) hcc

/-! ## Claim theorems: language classifier -/

/-- C7: `detect_language` is total (it is a Lean function, defined for every
input string), returns the first language in the static extension table with
a matching suffix, returns `none` when no extension matches, and in
particular classifies `"main.go"` as `"go"` and `"notes.txt"` as nothing. -/
theorem detect_language_total_first_match (s lang : String) :
    detect_language "main.go" = some "go" ∧
    detect_language "notes.txt" = none ∧
    (detect_language s = none ↔
      ∀ le ∈ LANGUAGE_EXTENSIONS, ∀ ext ∈ le.2, endswith s ext = false) ∧
    (detect_language s = some lang ↔
      ∃ l₁ exts l₂, LANGUAGE_EXTENSIONS = l₁ ++ (lang, exts) :: l₂ ∧
        (∃ ext ∈ exts, endswith s ext = true) ∧
        (∀ le ∈ l₁, ∀ ext ∈ le.2, endswith s ext = false)) := by
  refine ⟨by decide, by decide, ?_, ?_⟩
  · unfold detect_language
    rw [Option.map_eq_none', List.find?_eq_none]
    constructor
    · intro h le hle ext hext
      have := h le hle
      simp only [Bool.not_eq_true, List.any_eq_false] at this
      exact this ext hext
    · intro h le hle
      simp only [Bool.not_eq_true, List.any_eq_false]
      exact fun ext hext => h le hle ext hext
  · unfold detect_language
    rw [Option.map_eq_some']
    constructor
    · rintro ⟨⟨lg, exts⟩, hfind, hfst⟩
      cases hfst
      obtain ⟨l₁, l₂, heq, hp, hfst⟩ := (find?_eq_some_decomp _ _ _).mp hfind
      refine ⟨l₁, exts, l₂, heq, ?_, ?_⟩
      · simpa using List.any_eq_true.mp hp
      · intro le hle ext hext
        have := hfst le hle
        simp only [List.any_eq_false, Bool.not_eq_true] at this
        exact this ext hext
    · rintro ⟨l₁, exts, l₂, heq, ⟨ext, hext, hmatch⟩, hnone⟩
      refine ⟨(lang, exts), ?_, rfl⟩
      rw [find?_eq_some_decomp]
      refine ⟨l₁, l₂, heq, ?_, ?_⟩
      · exact List.any_eq_true.mpr ⟨ext, hext, hmatch⟩
      · intro y hy
        simp only [List.any_eq_false, Bool.not_eq_true]
        exact fun e he => hnone y hy e he

/-- C10: every file name ending in `".h"` is classified `"c"`, never
`"cpp"`: `".h"` appears in both the `c` and `cpp` rows of the table, but
`c` precedes `cpp` and first match wins. -/
theorem dot_h_always_c (s : String) (h : endswith s ".h" = true) :
    detect_language s = some "c" ∧
    detect_language s ≠ some "cpp" ∧
    (∃ exts, ("c", exts) ∈ LANGUAGE_EXTENSIONS ∧ ".h" ∈ exts) ∧
    (∃ exts, ("cpp", exts) ∈ LANGUAGE_EXTENSIONS ∧ ".h" ∈ exts) := by
  have hpy : endswith s ".py" = false :=
    endswith_last_ne s ".h" ".py" 'h' 'y' rfl rfl (by decide) h
  have hjava : endswith s ".java" = false :=
    endswith_last_ne s ".h" ".java" 'h' 'a' rfl rfl (by decide) h
  have hjs : endswith s ".js" = false :=
    endswith_last_ne s ".h" ".js" 'h' 's' rfl rfl (by decide) h
  have hts : endswith s ".ts" = false :=
    endswith_last_ne s ".h" ".ts" 'h' 's' rfl rfl (by decide) h
  have htsx : endswith s ".tsx" = false :=
    endswith_last_ne s ".h" ".tsx" 'h' 'x' rfl rfl (by decide) h
  have hhtml : endswith s ".html" = false :=
    endswith_last_ne s ".h" ".html" 'h' 'l' rfl rfl (by decide) h
  have hcss : endswith s ".css" = false :=
    endswith_last_ne s ".h" ".css" 'h' 's' rfl rfl (by decide) h
  have hc : detect_language s = some "c" := by
    unfold detect_language LANGUAGE_EXTENSIONS
    rw [List.find?_cons_of_neg _ (by simp [hpy])]
    rw [List.find?_cons_of_neg _ (by simp [hjava])]
    rw [List.find?_cons_of_neg _ (by simp [hjs])]
    rw [List.find?_cons_of_neg _ (by simp [hts])]
    rw [List.find?_cons_of_neg _ (by simp [htsx])]
    rw [List.find?_cons_of_neg _ (by simp [hhtml])]
    rw [List.find?_cons_of_neg _ (by simp [hcss])]
    rw [List.find?_cons_of_pos _ (by simp [h])]
    rfl
  refine ⟨hc, ?_, ⟨[".c", ".h"], by decide⟩, ⟨[".cpp", ".cc", ".cxx", ".hpp", ".h"], by decide⟩⟩
  rw [hc]
  simp

/-- Witness for C10 at the concrete header name `"foo.h"`. -/
theorem dot_h_always_c_witness :
    endswith "foo.h" ".h" = true ∧ detect_language "foo.h" = some "c" :=
  ⟨by decide, (dot_h_always_c "foo.h" (by decide)).1⟩

/-! ## Claim theorems: in-memory repository walker -/

/-- The keys of a walker result all come from the input map. -/
theorem parse_keys_subset
    (extract : String → String → Except String (List String × String))
    (fc : List (String × String)) :
    ((parse_code_from_memory extract fc).map Prod.fst) ⊆ fc.map Prod.fst := by
  induction fc with
  | nil => simp [parse_code_from_memory]
  | cons hd tl ih =>
    obtain ⟨q, src⟩ := hd
    intro x hx
    simp only [List.map_cons, List.mem_cons]
    simp only [parse_code_from_memory] at hx
    split at hx
    · exact Or.inr (ih hx)
    · split at hx
      · exact Or.inr (ih hx)
      · split at hx
        · simp only [List.map_cons, List.mem_cons] at hx
          rcases hx with rfl | hx
          · exact Or.inl rfl
          · exact Or.inr (ih hx)
        · exact Or.inr (ih hx)

/-- The in-memory map of C1's scenario. -/
def demoFiles : List (String × String) :=
  [("a.py", "def f(): pass"), ("a.min.js", "..."), ("node_modules/x.js", "...")]

/-- A total extractor standing in for the tree-sitter-backed
`extract_names_and_clean`: tree-sitter parsing is total (malformed input
yields a tree with error nodes, not an exception), and the walker's key set
does not depend on the extractor's returned value. -/
def stubExtract : String → String → Except String (List String × String) :=
  fun _ src => .ok ([], src)

/-- C1 counterexample: on the map `{"a.py": …, "a.min.js": …,
"node_modules/x.js": …}` the walker's result does **not** have `"a.py"` as
its only key — `"a.min.js"` is also a key, because no exclusion rule covers
minified-suffix names and `.js` is a recognized extension. -/
theorem walker_min_js_counterexample :
    (parse_code_from_memory stubExtract demoFiles).map Prod.fst ≠ ["a.py"] ∧
    "a.min.js" ∈ (parse_code_from_memory stubExtract demoFiles).map Prod.fst := by
  decide

/-- C1 amended: on that map the walker returns exactly the keys
`["a.py", "a.min.js"]` (for any extractor that succeeds on those two files);
`"node_modules/x.js"` is excluded by the folder rule, but `"a.min.js"` is
kept. -/
theorem walker_min_js_amended
    (extract : String → String → Except String (List String × String))
    (h₁ : ∃ r, extract "python" "def f(): pass" = .ok r)
    (h₂ : ∃ r, extract "javascript" "..." = .ok r) :
    (parse_code_from_memory extract demoFiles).map Prod.fst = ["a.py", "a.min.js"] := by
  obtain ⟨⟨n₁, c₁⟩, h₁⟩ := h₁
  obtain ⟨⟨n₂, c₂⟩, h₂⟩ := h₂
  have e₁ : should_exclude_file "a.py" = false := by decide
  have e₂ : should_exclude_file "a.min.js" = false := by decide
  have e₃ : should_exclude_file "node_modules/x.js" = true := by decide
  have d₁ : detect_language "a.py" = some "python" := by decide
  have d₂ : detect_language "a.min.js" = some "javascript" := by decide
  simp [demoFiles, parse_code_from_memory, e₁, e₂, e₃, d₁, d₂, h₁, h₂]

/-- Witness for C1's amended theorem using the concrete total extractor. -/
theorem walker_min_js_amended_witness :
    (∃ r, stubExtract "python" "def f(): pass" = .ok r) ∧
    (∃ r, stubExtract "javascript" "..." = .ok r) ∧
    (parse_code_from_memory stubExtract demoFiles).map Prod.fst = ["a.py", "a.min.js"] :=
  ⟨⟨_, rfl⟩, ⟨_, rfl⟩, walker_min_js_amended stubExtract ⟨_, rfl⟩ ⟨_, rfl⟩⟩

/-- In the in-memory walker, an extraction exception for one file drops
exactly that file and the rest of the batch is processed as if the file
were absent; the exception never escapes `parse_code_from_memory` (which
is a total function of its inputs). -/
theorem walker_per_file_error_isolation
    (extract : String → String → Except String (List String × String))
    (pre post : List (String × String)) (p src lang e : String)
    (hexc : should_exclude_file p = false)
    (hlang : detect_language p = some lang)
    (hfail : extract lang src = .error e)
    (hfresh : p ∉ (pre ++ post).map Prod.fst) :
    parse_code_from_memory extract (pre ++ (p, src) :: post) =
      parse_code_from_memory extract (pre ++ post) ∧
    p ∉ (parse_code_from_memory extract (pre ++ (p, src) :: post)).map Prod.fst := by
  have hmain : parse_code_from_memory extract (pre ++ (p, src) :: post) =
      parse_code_from_memory extract (pre ++ post) := by
    clear hfresh
    induction pre with
    | nil =>
      simp only [List.nil_append, parse_code_from_memory, hexc, hlang, hfail]
      simp
    | cons hd tl ih =>
      obtain ⟨q, s₀⟩ := hd
      simp only [List.cons_append, parse_code_from_memory]
      split
      · exact ih
      · split
        · exact ih
        · split
          · simp only [List.append_eq, ih]
          · exact ih
  refine ⟨hmain, ?_⟩
  rw [hmain]
  intro hmem
  exact hfresh (parse_keys_subset extract (pre ++ post) hmem)

/-- A concrete extractor that raises exactly on the source text `"BOOM"`. -/
def boomExtract : String → String → Except String (List String × String) :=
  fun _ src => if src = "BOOM" then .error "parse error" else .ok ([], src)

/-- C6 counterexample: in the disk walker `walk_folder`, a per-file
extraction exception is **not** caught — on a concrete three-file batch
whose middle file's extraction raises, the whole walk aborts with that
exception and no result map (not even one with the other two files) is
produced, because `extract_names_and_clean` is called outside the per-file
`try/except`. -/
theorem walk_folder_extraction_abort_counterexample :
    walk_folder_files boomExtract
        [("ok.py", "ok.py", .ok "def g(): pass"),
         ("bad.py", "bad.py", .ok "BOOM"),
         ("also.js", "also.js", .ok "x")] =
      .error "parse error" := by
  rfl

/-- C6 amended: in the in-memory walker (`parse_code_from_memory`) an
extraction exception is caught per file — exactly that file is excluded and
the rest of the batch is processed as if it were absent, the exception never
escaping. In the disk walker (`walk_folder`) the per-file `try/except`
guards only the file read: a failed read is caught and only that file
skipped, but an extraction exception propagates out of `walk_folder` and
aborts the whole batch. -/
theorem walker_error_isolation_amended
    (extract : String → String → Except String (List String × String))
    (pre post : List (String × String)) (p src lang e : String)
    (hexc : should_exclude_file p = false)
    (hexcd : EXCLUDED_FILES.contains p = false)
    (hlang : detect_language p = some lang)
    (hfail : extract lang src = .error e)
    (hfresh : p ∉ (pre ++ post).map Prod.fst) :
    (parse_code_from_memory extract (pre ++ (p, src) :: post) =
        parse_code_from_memory extract (pre ++ post) ∧
      p ∉ (parse_code_from_memory extract (pre ++ (p, src) :: post)).map Prod.fst) ∧
    (∀ (rel : String) (dpost : List (String × String × Except String String)),
      walk_folder_files extract ((p, rel, .ok src) :: dpost) = .error e) ∧
    (∀ (fname rel readErr : String)
        (dpost : List (String × String × Except String String)),
      walk_folder_files extract ((fname, rel, .error readErr) :: dpost) =
        walk_folder_files extract dpost) := by
  refine ⟨walker_per_file_error_isolation extract pre post p src lang e
    hexc hlang hfail hfresh, ?_, ?_⟩
  · intro rel dpost
    simp only [walk_folder_files, hexcd, hlang, hfail]
    simp
  · intro fname rel readErr dpost
    simp only [walk_folder_files]
    split
    · rfl
    · split
      · rfl
      · rfl

/-- Witness for C6's amended theorem: the concrete `"BOOM"` extractor on
concrete batches for both walkers. -/
theorem walker_error_isolation_amended_witness :
    (parse_code_from_memory boomExtract
        [("ok.py", "def g(): pass"), ("bad.py", "BOOM"), ("also.js", "x")] =
      parse_code_from_memory boomExtract
        [("ok.py", "def g(): pass"), ("also.js", "x")] ∧
      "bad.py" ∉ (parse_code_from_memory boomExtract
        [("ok.py", "def g(): pass"), ("bad.py", "BOOM"), ("also.js", "x")]).map
        Prod.fst) ∧
    walk_folder_files boomExtract
        [("bad.py", "bad.py", .ok "BOOM"), ("also.js", "also.js", .ok "x")] =
      .error "parse error" ∧
    walk_folder_files boomExtract
        [("bad.py", "bad.py", .error "open failed"),
         ("also.js", "also.js", .ok "x")] =
      walk_folder_files boomExtract [("also.js", "also.js", .ok "x")] := by
  have h := walker_error_isolation_amended boomExtract
    [("ok.py", "def g(): pass")] [("also.js", "x")] "bad.py" "BOOM" "python" "parse error"
    (by decide) (by decide) (by decide) rfl (by decide)
  exact ⟨h.1, h.2.1 "bad.py" [("also.js", "also.js", .ok "x")],
    h.2.2 "bad.py" "bad.py" "open failed" [("also.js", "also.js", .ok "x")]⟩

/-! ## LLM retry wrappers

`summarize_code.py` lines 34-46 and `analyze_project.py` lines 10-18 define
one `safe_llm_call` (retry on **any** exception, `max_retries=5`,
`base_wait=2.0`, sleep `base_wait * 2**attempt + uniform(0,1)`, attempts
counted from 0); `generate_readme.py` lines 14-26 define another (retry only
when `"429" in str(e)`, non-429 errors re-raised immediately, `retries=5`,
`base_delay=5`, sleep `base_delay * 2**(attempt-1) + uniform(0,3)`, attempts
counted from 1). The LLM collaborator is an attempt-indexed oracle
`f : Nat → Except String String`; sleeping is modelled by recording the
slept durations (ℚ), with the random jitter an arbitrary function. -/

/-- The summarize/analyze `safe_llm_call` loop body: `(attempt, remaining
iterations) ↦ (outcome, recorded sleep durations)`. On success the result is
`sum.strip()`; every failed attempt sleeps, and after the loop a
`RuntimeError` is raised. -/
def safe_llm_call_loop (f : Nat → Except String String) (jitter : Nat → ℚ)
    (base_wait : ℚ) : Nat → Nat → Except String String × List ℚ
  | _, 0 => (.error "LLM call failed after maximum retries.", [])
  | attempt, fuel + 1 =>
    match f attempt with
    | .ok v => (.ok (pyStrip v), [])
    | .error _ =>
      let rest := safe_llm_call_loop f jitter base_wait (attempt + 1) fuel
      (rest.1, (base_wait * 2 ^ attempt + jitter attempt) :: rest.2)

/-- `safe_llm_call` of `summarize_code.py` / `analyze_project.py`:
attempts run from 0 to `max_retries - 1`. -/
def safe_llm_call_summarize (f : Nat → Except String String) (jitter : Nat → ℚ)
    (max_retries : Nat) (base_wait : ℚ) : Except String String × List ℚ :=
  safe_llm_call_loop f jitter base_wait 0 max_retries

/-- `"429" in str(e)`: the retryability test of `generate_readme.py`. -/
def is429 (e : String) : Bool :=
  listInfixB "429".data e.data

/-- The `generate_readme.py` `safe_llm_call` loop body: retry with backoff
only on 429 errors; re-raise anything else immediately; raise
`"Max retries exceeded for LLM call"` after the loop. -/
def safe_llm_call_readme_loop (f : Nat → Except String String) (jitter : Nat → ℚ)
    (base_delay : ℚ) : Nat → Nat → Except String String × List ℚ
  | _, 0 => (.error "Max retries exceeded for LLM call", [])
  | attempt, fuel + 1 =>
    match f attempt with
    | .ok v => (.ok (pyStrip v), [])
    | .error e =>
      if is429 e then
        let rest := safe_llm_call_readme_loop f jitter base_delay (attempt + 1) fuel
        (rest.1, (base_delay * 2 ^ (attempt - 1) + jitter attempt) :: rest.2)
      else (.error e, [])

/-- `safe_llm_call` of `generate_readme.py`: attempts run from 1 to
`retries`. -/
def safe_llm_call_readme (f : Nat → Except String String) (jitter : Nat → ℚ)
    (retries : Nat) (base_delay : ℚ) : Except String String × List ℚ :=
  safe_llm_call_readme_loop f jitter base_delay 1 retries

/-! ## Claim theorems: retry policy -/

/-- C3: in both retry wrappers, a collaborator that fails retryably on the
first two calls and succeeds on the third causes exactly two recorded
backoff sleeps (base component doubling between them, plus jitter), and the
wrapper returns the third call's (stripped) result — it never raises. -/
theorem retry_two_failures_then_success
    (f g : Nat → Except String String) (jitter : Nat → ℚ)
    (R : Nat) (baseS baseR : ℚ) (v w e₀ e₁ u₁ u₂ : String)
    (hR : 3 ≤ R)
    (hf0 : f 0 = .error e₀) (hf1 : f 1 = .error e₁) (hf2 : f 2 = .ok v)
    (hg1 : g 1 = .error u₁) (h4a : is429 u₁ = true)
    (hg2 : g 2 = .error u₂) (h4b : is429 u₂ = true)
    (hg3 : g 3 = .ok w) :
    (safe_llm_call_summarize f jitter R baseS).1 = .ok (pyStrip v) ∧
    (safe_llm_call_summarize f jitter R baseS).2 =
      [baseS * 2 ^ 0 + jitter 0, baseS * 2 ^ 1 + jitter 1] ∧
    (safe_llm_call_readme g jitter R baseR).1 = .ok (pyStrip w) ∧
    (safe_llm_call_readme g jitter R baseR).2 =
      [baseR * 2 ^ 0 + jitter 1, baseR * 2 ^ 1 + jitter 2] := by
  obtain ⟨k, rfl⟩ : ∃ k, R = k + 3 := ⟨R - 3, by omega⟩
  refine ⟨?_, ?_, ?_, ?_⟩ <;>
    simp [safe_llm_call_summarize, safe_llm_call_readme, safe_llm_call_loop,
      safe_llm_call_readme_loop, hf0, hf1, hf2, hg1, hg2, hg3, h4a, h4b]

/-- A collaborator failing twice retryably then succeeding, for each wrapper
flavor. -/
def flakyPlain : Nat → Except String String :=
  fun a => if a < 2 then .error "boom" else .ok "result"

/-- A collaborator rate-limited on attempts 1 and 2, succeeding on 3. -/
def flaky429 : Nat → Except String String :=
  fun a => if a < 3 then .error "HTTP 429 Too Many Requests" else .ok "readme text"

/-- Witness for C3 with the source defaults (`max_retries=5`, `base_wait=2`,
`base_delay=5`) and concrete collaborators. -/
theorem retry_two_failures_then_success_witness :
    3 ≤ 5 ∧
    (safe_llm_call_summarize flakyPlain (fun _ => 0) 5 2).1 = .ok (pyStrip "result") ∧
    (safe_llm_call_summarize flakyPlain (fun _ => 0) 5 2).2 =
      [2 * 2 ^ 0 + 0, 2 * 2 ^ 1 + 0] ∧
    (safe_llm_call_readme flaky429 (fun _ => 0) 5 5).1 = .ok (pyStrip "readme text") ∧
    (safe_llm_call_readme flaky429 (fun _ => 0) 5 5).2 =
      [5 * 2 ^ 0 + 0, 5 * 2 ^ 1 + 0] := by
  have h := retry_two_failures_then_success flakyPlain flaky429 (fun _ => 0) 5 2 5
    "result" "readme text" "boom" "boom" "HTTP 429 Too Many Requests"
    "HTTP 429 Too Many Requests" (by omega) rfl rfl rfl rfl (by decide) rfl (by decide) rfl
  exact ⟨by omega, h.1, h.2.1, h.2.2.1, h.2.2.2⟩

/-! ## Synthesize-README stage (`generate_readme.py`) -/

/-- One entry of `state.readme_summaries` (the dict appended at
`summarize_code.py` lines 97-102). -/
structure SummaryItem where
  file : String
  summary : String
  type : String
  contains : List String
  deriving Repr, DecidableEq

/-- The per-item markdown block built at `generate_readme.py` lines 59-70. -/
def summaryBlock (item : SummaryItem) : String :=
  let ls := ["#### `" ++ item.file ++ "` (" ++ item.type ++ ")",
             "- Summary: " ++ item.summary]
  let ls := if item.contains.isEmpty then ls
            else ls ++ ["- Contains: " ++ String.intercalate ", " item.contains]
  String.intercalate "\n" ls

/-- Loop body of `chunk_summaries` (`generate_readme.py` lines 28-46):
greedily pack summary strings into chunks of at most `max_chars`
characters (the running chunk is flushed, possibly empty, whenever the next
string would overflow). -/
def chunkAux (max_chars : Nat) : List String → List String → Nat → List String
  | [], current, _ => if current.isEmpty then [] else [String.intercalate "\n\n" current]
  | s :: rest, current, current_len =>
    if current_len + s.length > max_chars then
      String.intercalate "\n\n" current :: chunkAux max_chars rest [s] s.length
    else
      chunkAux max_chars rest (current ++ [s]) (current_len + s.length)

/-- `chunk_summaries` (`generate_readme.py` lines 28-46). -/
def chunk_summaries (summaries : List String) (max_chars : Nat) : List String :=
  chunkAux max_chars summaries [] 0

/-- The per-chunk partial-summary loop (`generate_readme.py` lines 74-87):
one `safe_llm_call` per chunk, **not** wrapped in try/except, so retry
exhaustion (or a non-429 error) propagates out of the stage. The LLM
collaborator is a call-site- and attempt-indexed oracle, and the regex-based
`clean_llm_markdown_response` is the abstract parameter `clean`. -/
def runPartials (oracle : Nat → Nat → Except String String) (clean : String → String)
    (jitter : Nat → ℚ) (retries : Nat) (base_delay : ℚ) :
    Nat → List String → Except String (List String)
  | _, [] => .ok []
  | i, _chunk :: rest =>
    match (safe_llm_call_readme (oracle i) jitter retries base_delay).1 with
    | .error e => .error e
    | .ok chunkSummaryMd =>
      match runPartials oracle clean jitter retries base_delay (i + 1) rest with
      | .error e => .error e
      | .ok others => .ok (clean chunkSummaryMd :: others)

/-- `generate_readme` (`generate_readme.py` lines 48-182), modelled down to
its control flow: preference gate, summary-section assembly, chunked partial
calls (errors propagate), then the final README call whose `try/except`
catches **any** failure and stores `state.readme = ""` (lines 173-181).
The returned value is the final `state.readme`; `.error` is an exception
escaping the stage. -/
def generate_readme_stage (generate_readme_pref : Bool) (readme₀ : String)
    (readme_summaries : List SummaryItem)
    (oracle : Nat → Nat → Except String String) (clean : String → String)
    (jitter : Nat → ℚ) (retries : Nat) (base_delay : ℚ) : Except String String :=
  if !generate_readme_pref then .ok readme₀
  else
    let summaries_section := readme_summaries.map summaryBlock
    let chunks := chunk_summaries summaries_section 6000
    match runPartials oracle clean jitter retries base_delay 0 chunks with
    | .error e => .error e
    | .ok codeSummaryChunks =>
      let _merged_code_summary := String.intercalate "\n\n" codeSummaryChunks
      match (safe_llm_call_readme (oracle chunks.length) jitter retries base_delay).1 with
      | .ok raw => .ok (pyStrip (pyReplace (clean raw) "\\n" "\n"))
      | .error _ => .ok ""

/-- A collaborator that is rate-limited on every call and attempt. -/
def alwaysRateLimited : Nat → Nat → Except String String :=
  fun _ _ => .error "429 Too Many Requests"

/-- With every attempt 429-failing, the readme-flavor retry loop always ends
in retry exhaustion. -/
theorem readme_loop_exhausts (f : Nat → Except String String) (jitter : Nat → ℚ)
    (base_delay : ℚ) (h : ∀ a, ∃ e, f a = .error e ∧ is429 e = true) :
    ∀ fuel attempt, (safe_llm_call_readme_loop f jitter base_delay attempt fuel).1 =
      .error "Max retries exceeded for LLM call" := by
  intro fuel
  induction fuel with
  | zero => intro attempt; rfl
  | succ n ih =>
    intro attempt
    obtain ⟨e, he, h4⟩ := h attempt
    simp [safe_llm_call_readme_loop, he, h4, ih]

/-- `chunkAux` never returns the empty list unless both the input and the
running chunk are empty. -/
theorem chunkAux_ne_nil (max_chars : Nat) (ss current : List String) (clen : Nat)
    (h : ss ≠ [] ∨ current ≠ []) : chunkAux max_chars ss current clen ≠ [] := by
  induction ss generalizing current clen with
  | nil =>
    rcases h with h | h
    · exact absurd rfl h
    · simp [chunkAux, h]
  | cons s rest ih =>
    simp only [chunkAux]
    split
    · simp
    · exact ih _ _ (Or.inr (by simp))

/-! ## Claim theorems: README retry exhaustion -/

/-- C4 counterexample: with the generate-readme preference on, an empty
summary list, and a collaborator that is rate-limited on every attempt, the
final README call exhausts all retries — yet `generate_readme` does **not**
propagate an error: it returns normally with `readme = ""` (an empty-readme
result). -/
theorem readme_exhaustion_counterexample :
    generate_readme_stage true "prior" [] alwaysRateLimited id (fun _ => 0) 5 5 =
      .ok "" := by
  rfl

/-- C4 amended: total LLM retry exhaustion during the per-chunk
partial-summary calls does abort the stage with a propagated error, but
exhaustion on the final README call is caught by the stage's `try/except`
and yields a normal result with an empty readme. -/
theorem readme_exhaustion_amended
    (oracle : Nat → Nat → Except String String) (clean : String → String)
    (jitter : Nat → ℚ) (retries : Nat) (base_delay : ℚ) (readme₀ : String)
    (summaries : List SummaryItem) :
    ((∀ a, ∃ e, oracle 0 a = .error e ∧ is429 e = true) → summaries ≠ [] →
      generate_readme_stage true readme₀ summaries oracle clean jitter retries base_delay =
        .error "Max retries exceeded for LLM call") ∧
    (∀ ps e, runPartials oracle clean jitter retries base_delay 0
        (chunk_summaries (summaries.map summaryBlock) 6000) = .ok ps →
      (safe_llm_call_readme
          (oracle (chunk_summaries (summaries.map summaryBlock) 6000).length)
          jitter retries base_delay).1 = .error e →
      generate_readme_stage true readme₀ summaries oracle clean jitter retries base_delay =
        .ok "") := by
  constructor
  · intro h429 hne
    have hch : chunk_summaries (summaries.map summaryBlock) 6000 ≠ [] := by
      apply chunkAux_ne_nil
      exact Or.inl (by simpa using hne)
    simp only [generate_readme_stage, Bool.not_true, Bool.false_eq_true, if_false]
    rcases hc : chunk_summaries (summaries.map summaryBlock) 6000 with _ | ⟨c, rest⟩
    · exact absurd hc hch
    · have hex := readme_loop_exhausts (oracle 0) jitter base_delay h429 retries 1
      simp only [runPartials, safe_llm_call_readme] at *
      rw [hex]
  · intro ps e hok hfin
    simp only [generate_readme_stage, Bool.not_true, Bool.false_eq_true, if_false]
    rw [hok, hfin]

/-- Witness for C4's amended theorem: a nonempty summary list makes the
always-rate-limited collaborator abort the stage; the empty list reaches the
final call, whose exhaustion is swallowed into `readme = ""`. -/
theorem readme_exhaustion_amended_witness :
    generate_readme_stage true "prior" [⟨"main.py", "does things", "python", []⟩]
        alwaysRateLimited id (fun _ => 0) 5 5 =
      .error "Max retries exceeded for LLM call" ∧
    generate_readme_stage true "prior" [] alwaysRateLimited id (fun _ => 0) 5 5 =
      .ok "" := by
  constructor
  · exact (readme_exhaustion_amended alwaysRateLimited id (fun _ => 0) 5 5 "prior"
      [⟨"main.py", "does things", "python", []⟩]).1
      (fun a => ⟨"429 Too Many Requests", rfl, by decide⟩) (by simp)
  · exact (readme_exhaustion_amended alwaysRateLimited id (fun _ => 0) 5 5 "prior" []).2
      [] "Max retries exceeded for LLM call" rfl rfl

/-! ## Summarize stage (`summarize_code.py`) -/

/-- Chunk extraction loop of `split_code_into_chunks`: Python
`for i in range(0, len(lines), step)` with `"\n".join(lines[i:i+size])`;
the fuel argument bounds the iteration count (`step ≥ 1` in the source,
so `lines.length` iterations suffice). -/
def takeChunks (lines : List String) (size step : Nat) : Nat → Nat → List String
  | 0, _ => []
  | fuel + 1, i =>
    if i < lines.length then
      String.intercalate "\n" ((lines.drop i).take size)
        :: takeChunks lines size step fuel (i + step)
    else []

/-- `split_code_into_chunks` (`summarize_code.py` lines 10-16):
overlapping line windows, `CHUNK_SIZE = 300`, `CHUNK_OVERLAP = 10`. -/
def split_code_into_chunks (code : String) (lines_per_chunk overlap : Nat) : List String :=
  let lines := splitlines code
  takeChunks lines lines_per_chunk (lines_per_chunk - overlap) lines.length 0

/-- Python `\w` (ASCII fragment: letters, digits, underscore). -/
def isWordChar (c : Char) : Bool :=
  c.isAlphanum || c = '_'

/-- The separator char class `[:\-â€“]` of the summary-line regex in
`summarize_code.py` line 26 (the source file stores a mojibake-encoded
en-dash, so the class is these five literal characters). -/
def isSummSep (c : Char) : Bool :=
  c = ':' || c = '-' || c = 'â' || c = '€' || c = '“'

/-- The `\s*(.+)` tail after the separator: greedy whitespace, but the
regex engine backtracks one character when everything left is whitespace so
that `(.+)` can still match at least one character. -/
def summaryTail (rest : List Char) : Option (List Char) :=
  match rest.dropWhile isPySpace with
  | d :: ds => some (d :: ds)
  | [] =>
    match rest.reverse with
    | [] => none
    | c :: _ => some [c]

/-- The `\s*[:\-â€“]\s*(.+)` part of the regex, after the symbol word. -/
def summaryAfterWord (l : List Char) : Option (List Char) :=
  match l.dropWhile isPySpace with
  | [] => none
  | c :: rest => if isSummSep c then summaryTail rest else none

/-- `re.match(r"([\w_]+)\s*[:\-â€“]\s*(.+)", line)` (`summarize_code.py`
line 26), returning the two capture groups. Under the ASCII reading of `\w`
the word/space/separator classes are disjoint, so the greedy `[\w_]+` never
needs to backtrack. -/
def matchSummaryLine (line : String) : Option (String × String) :=
  let l := line.data
  let word := l.takeWhile isWordChar
  if word.isEmpty then none
  else (summaryAfterWord (l.drop word.length)).map
    (fun t => (String.mk word, String.mk t))

/-- One structured `{"symbol": …, "summary": …}` record. -/
structure ParsedLine where
  symbol : Option String
  summary : String
  deriving Repr, DecidableEq

/-- `parse_llm_summary_response` (`summarize_code.py` lines 18-32): keep the
bullet lines, strip bullet markers, and split each into symbol/summary via
the regex (falling back to a symbol-less record). -/
def parse_llm_summary_response (response : String) : List ParsedLine :=
  let ls := (splitlines (pyStrip response)).filter
    (fun line => startswith (pyStrip line) "-")
  let ls := ls.map (fun line => pyStrip (pyStripSet ['-', ' '] line))
  ls.map (fun line =>
    match matchSummaryLine line with
    | some (symbol, summary) => ⟨some (pyStrip symbol), pyStrip summary⟩
    | none => ⟨none, line⟩)

/-- The mutable pipeline state fields touched by `summarize_code_node`. -/
structure SummState where
  generate_summary : Bool
  parsed_data : List (String × List (String × FileRecord))
  current_file_path : String
  readme_summaries : List SummaryItem
  summaries : String → Option String

/-- The per-chunk loop of `summarize_code_node` (lines 65-87): each chunk's
prompt goes through `safe_llm_call` (any-exception retry flavor, defaults
`max_retries=5`, `base_wait=2.0`) inside a `try/except` that skips the
chunk after total retry exhaustion; successes are parsed and concatenated. -/
def collectStructured (oracle : Nat → Nat → Except String String) (jitter : Nat → ℚ) :
    Nat → List String → List ParsedLine
  | _, [] => []
  | i, _chunk :: rest =>
    match (safe_llm_call_summarize (oracle i) jitter 5 2).1 with
    | .ok response =>
      parse_llm_summary_response response ++ collectStructured oracle jitter (i + 1) rest
    | .error _ => collectStructured oracle jitter (i + 1) rest

/-- `" ".join([s['summary'] for s in all_structured_summaries if s['summary']]).strip()`
(`summarize_code.py` line 88). -/
def combinedSummary (structured : List ParsedLine) : String :=
  pyStrip (String.intercalate " "
    ((structured.filter (fun s => s.summary ≠ "")).map (fun s => s.summary)))

/-- `summarize_code_node` (`summarize_code.py` lines 48-106): preference and
empty-state gates, `state.parsed_data["repo_path"][file_path]` lookups
(raising `KeyError` when missing, uncaught), the blank-code gate, the
chunked LLM calls, and the replace-then-append update of
`readme_summaries` plus the dict write to `summaries`. -/
def summarize_code_node (oracle : Nat → Nat → Except String String)
    (jitter : Nat → ℚ) (st : SummState) : Except String SummState :=
  if !st.generate_summary || st.parsed_data.isEmpty then .ok st
  else
    match st.parsed_data.lookup "repo_path" with
    | none => .error "KeyError: repo_path"
    | some repo =>
      match repo.lookup st.current_file_path with
      | none => .error "KeyError: current_file_path"
      | some file_info =>
        if pyStrip file_info.code = "" then .ok st
        else
          let chunks := split_code_into_chunks file_info.code 300 10
          let combined := combinedSummary (collectStructured oracle jitter 0 chunks)
          .ok { st with
            readme_summaries :=
              (st.readme_summaries.filter
                (fun s => s.file ≠ st.current_file_path)) ++
              [⟨st.current_file_path,
                if combined = "" then "No summary available." else combined,
                file_info.type, file_info.contains⟩],
            summaries := fun p =>
              if p = st.current_file_path then some combined else st.summaries p }

/-- States reachable from `s₀` by successful `summarize_code_node` runs
(with arbitrary oracles and paths between runs). -/
inductive SummReach : SummState → SummState → Prop
  | refl (s : SummState) : SummReach s s
  | step {s₀ s s' : SummState} (oracle : Nat → Nat → Except String String)
      (jitter : Nat → ℚ) (h : SummReach s₀ s)
      (hs : summarize_code_node oracle jitter s = .ok s') : SummReach s₀ s'

/-- One successful summarize run keeps the per-file keys duplicate-free. -/
theorem node_preserves_nodup (oracle : Nat → Nat → Except String String)
    (jitter : Nat → ℚ) (st st' : SummState)
    (hstep : summarize_code_node oracle jitter st = .ok st')
    (hn : (st.readme_summaries.map SummaryItem.file).Nodup) :
    (st'.readme_summaries.map SummaryItem.file).Nodup := by
  unfold summarize_code_node at hstep
  split at hstep
  · cases hstep; exact hn
  · split at hstep
    · cases hstep
    · split at hstep
      · cases hstep
      · split at hstep
        · cases hstep; exact hn
        · cases hstep
          simp only [List.map_append, List.map_cons, List.map_nil]
          rw [List.nodup_append]
          refine ⟨?_, List.nodup_singleton _, ?_⟩
          · exact hn.sublist ((List.filter_sublist _).map SummaryItem.file)
          · intro a ha hb
            simp only [List.mem_singleton] at hb
            subst hb
            obtain ⟨s, hs, hfile⟩ := List.mem_map.mp ha
            have := (List.mem_filter.mp hs).2
            simp only [decide_not, Bool.not_eq_true', decide_eq_false_iff_not] at this
            exact this hfile

/-- Duplicate-freedom of summary keys is invariant under any sequence of
successful summarize runs. -/
theorem reach_nodup (st₀ st : SummState) (hr : SummReach st₀ st)
    (h₀ : (st₀.readme_summaries.map SummaryItem.file).Nodup) :
    (st.readme_summaries.map SummaryItem.file).Nodup := by
  induction hr with
  | refl => exact h₀
  | step oracle jitter h hs ih => exact node_preserves_nodup _ _ _ _ hs ih

/-! ## Claim theorem: summarize idempotence / last-write-wins -/

/-- C5: starting from duplicate-free per-file summary keys, after any
sequence of summarize runs the keys stay duplicate-free (at most one entry
per path), and a run that changes `readme_summaries` replaces the current
path's entry: the result is the old list with that path's entries filtered
out plus exactly one fresh entry for it, whose summary is this run's
combined summary (also written to the `summaries` dict); entries for other
paths are untouched. -/
theorem summarize_last_write_wins
    (st₀ st st' : SummState) (oracle : Nat → Nat → Except String String)
    (jitter : Nat → ℚ)
    (h₀ : (st₀.readme_summaries.map SummaryItem.file).Nodup)
    (hr : SummReach st₀ st)
    (hstep : summarize_code_node oracle jitter st = .ok st') :
    (st'.readme_summaries.map SummaryItem.file).Nodup ∧
    (st'.readme_summaries ≠ st.readme_summaries →
      ∃ c lang syms,
        st'.summaries st.current_file_path = some c ∧
        st'.readme_summaries =
          (st.readme_summaries.filter (fun s => s.file ≠ st.current_file_path)) ++
            [⟨st.current_file_path,
              if c = "" then "No summary available." else c, lang, syms⟩] ∧
        st'.readme_summaries.filter (fun s => s.file = st.current_file_path) =
          [⟨st.current_file_path,
            if c = "" then "No summary available." else c, lang, syms⟩] ∧
        (∀ q, q ≠ st.current_file_path → st'.summaries q = st.summaries q)) := by
  have hnst := reach_nodup st₀ st hr h₀
  refine ⟨node_preserves_nodup oracle jitter st st' hstep hnst, ?_⟩
  intro hne
  unfold summarize_code_node at hstep
  split at hstep
  · cases hstep; exact absurd rfl hne
  · split at hstep
    · cases hstep
    · split at hstep
      · cases hstep
      · split at hstep
        · cases hstep; exact absurd rfl hne
        · cases hstep
          refine ⟨_, _, _, by simp, rfl, ?_, ?_⟩
          · simp only [List.filter_append, List.filter_filter]
            rw [List.filter_eq_nil_iff.mpr, List.nil_append]
            · simp
            · intro a _
              simp only [Bool.and_eq_true, decide_eq_true_eq, decide_not,
                Bool.not_eq_true', decide_eq_false_iff_not, not_and]
              intro h1 h2
              exact absurd h1 h2
          · intro q hq
            simp [hq]

/-- A concrete pre-run state: one already-summarized file with a stale
entry, preferences on, one parsed python file. -/
def WSt : SummState :=
  { generate_summary := true,
    parsed_data :=
      [("repo_path", [("main.py", ⟨"main.py", "def f(): pass", "python", ["f"]⟩)])],
    current_file_path := "main.py",
    readme_summaries := [⟨"main.py", "stale", "python", ["f"]⟩],
    summaries := fun _ => none }

/-- A stub LLM that always returns one fixed bullet line. -/
def stubSummOracle : Nat → Nat → Except String String :=
  fun _ _ => .ok "- f: does stuff"

/-- The state after one summarize run of `WSt` under the stub LLM. -/
def W1 : SummState :=
  { generate_summary := true,
    parsed_data :=
      [("repo_path", [("main.py", ⟨"main.py", "def f(): pass", "python", ["f"]⟩)])],
    current_file_path := "main.py",
    readme_summaries := [⟨"main.py", "does stuff", "python", ["f"]⟩],
    summaries := fun p => if p = "main.py" then some "does stuff" else none }

/-- Witness for C5: one concrete summarize run on `WSt` replaces the stale
`"main.py"` entry. -/
theorem summarize_last_write_wins_witness :
    (W1.readme_summaries.map SummaryItem.file).Nodup ∧
    (W1.readme_summaries ≠ WSt.readme_summaries →
      ∃ c lang syms,
        W1.summaries WSt.current_file_path = some c ∧
        W1.readme_summaries =
          (WSt.readme_summaries.filter (fun s => s.file ≠ WSt.current_file_path)) ++
            [⟨WSt.current_file_path,
              if c = "" then "No summary available." else c, lang, syms⟩] ∧
        W1.readme_summaries.filter (fun s => s.file = WSt.current_file_path) =
          [⟨WSt.current_file_path,
            if c = "" then "No summary available." else c, lang, syms⟩] ∧
        (∀ q, q ≠ WSt.current_file_path → W1.summaries q = WSt.summaries q)) :=
  summarize_last_write_wins WSt WSt W1 stubSummOracle (fun _ => 0)
    (by decide) (.refl WSt) rfl

/-! ## Analyze stage (`analyze_project.py`) -/

/-- The `result` dict of `parse_analysis_response`
(`analyze_project.py` lines 267-272). -/
structure AnalysisParsed where
  summary : String
  purpose : String
  functions : List String
  key_details : List String
  deriving Repr, DecidableEq

/-- The bullet-line extraction used for both the functions and the
technical-details sections (`analyze_project.py` lines 297-304, 315-321):
strip each line, keep lines starting with `-` or `*`, strip the leading
markers, and drop lines that become empty. -/
def bulletItems (content : String) : List String :=
  ((splitOnChar '\n' (pyStrip content).data).map String.mk).filterMap (fun line0 =>
    let line := pyStrip line0
    if startswith line "-" || startswith line "*" then
      let line2 := pyStrip (pyLstripSet ['-', '*'] line)
      if line2 = "" then none else some line2
    else none)

/-- One iteration of the `for i in range(len(sections))` loop of
`parse_analysis_response` (`analyze_project.py` lines 277-321). -/
def parStep (sections : List String) (acc : AnalysisParsed) (i : Nat) : AnalysisParsed :=
  let section_ := pyStrip (sections.getD i "")
  if startswith (pyUpper section_) "PURPOSE:" then
    let content := pyStrip (pyReplace section_ "PURPOSE:" "")
    let content :=
      if i + 1 < sections.length then pyStrip ((pySplitStr "**" content).getD 0 "")
      else content
    { acc with purpose := content, summary := content }
  else if startswith (pyUpper section_) "KEY FUNCTIONS:" then
    let func_content :=
      if i + 1 < sections.length then
        let fc := sections.getD (i + 1) ""
        if containsSub fc "**" then (pySplitStr "**" fc).getD 0 "" else fc
      else pyStrip (pyReplace section_ "KEY FUNCTIONS:" "")
    { acc with functions := acc.functions ++ bulletItems func_content }
  else if startswith (pyUpper section_) "TECHNICAL DETAILS:" then
    let detail_content :=
      if i + 1 < sections.length then
        let dc := sections.getD (i + 1) ""
        if containsSub dc "**" then (pySplitStr "**" dc).getD 0 "" else dc
      else pyStrip (pyReplace section_ "TECHNICAL DETAILS:" "")
    { acc with key_details := acc.key_details ++ bulletItems detail_content }
  else acc

/-- The section-splitting loop of `parse_analysis_response` before its two
fallbacks (`analyze_project.py` lines 267-321). -/
def rawAnalysisParsed (response : String) : AnalysisParsed :=
  let sections := pySplitStr "**" response
  (List.range sections.length).foldl (parStep sections) ⟨"", "", [], []⟩

/-- The symbols-based functions fallback (`analyze_project.py` line 325). -/
def fallbackFunctions (symbols : List String) : List String :=
  (symbols.take 5).map (fun sym => "`" ++ sym ++ "()` - Function or class in this file")

/-- `parse_analysis_response` (`analyze_project.py` lines 263-332): the
section loop, then the symbols fallback for `functions`, then the generic
placeholder fallback for `purpose`/`summary`. -/
def parse_analysis_response (response : String) (symbols : List String) : AnalysisParsed :=
  let result := rawAnalysisParsed response
  let result :=
    if result.functions.isEmpty && !symbols.isEmpty then
      { result with functions := fallbackFunctions symbols }
    else result
  if result.purpose = "" then
    { result with purpose := "This file is part of the application codebase.",
                  summary := "This file is part of the application codebase." }
  else result

/-- The non-code-language skip set (`analyze_project.py` line 48). -/
def analyzeSkipLangs : List String :=
  ["css", "scss", "sass", "less", "html", "json", "yaml", "yml"]

/-- The config/build filename skip patterns (`analyze_project.py`
lines 64-68), matched by substring containment on the lowercased
basename. -/
def analyzeSkipPatterns : List String :=
  ["package.json", "package-lock.json", "yarn.lock", "pnpm-lock.yaml",
   "tsconfig", "webpack", "vite.config", "babel", "eslint",
   ".lock", ".min.js", ".bundle.js"]

/-- One entry of `detailed_analysis`: on success the parsed sections plus
`language`/`symbols` keys; on a caught per-file exception the placeholder
dict of `analyze_project.py` lines 128-133 (which has no
`language`/`symbols` keys, modelled as `none`). -/
structure AnalysisEntry where
  summary : String
  purpose : String
  functions : List String
  key_details : List String
  language : Option String
  symbols : Option (List String)
  deriving Repr, DecidableEq

/-- The per-file body of the `analyze_project_structure` loop
(`analyze_project.py` lines 41-133): the four skip checks (`continue`,
producing no entry), then the LLM call through `safe_llm_call`
(summarize-flavor retries, defaults 5 / 2.0) whose total failure is caught
and recorded as the placeholder entry. -/
def analyzeFileStep (oracle : Nat → Except String String) (jitter : Nat → ℚ)
    (file_path : String) (fi : FileRecord) : Option AnalysisEntry :=
  if analyzeSkipLangs.contains fi.type then none
  else if pyStrip fi.code = "" || (pyStrip fi.code).length < 50 then none
  else if fi.contains.isEmpty then none
  else
    let filename := pyLower (String.mk ((splitOnChar '/' file_path.data).getLastD []))
    if analyzeSkipPatterns.any (fun pat => containsSub filename pat) then none
    else
      match (safe_llm_call_summarize oracle jitter 5 2).1 with
      | .ok response =>
        let parsed := parse_analysis_response response fi.contains
        some ⟨parsed.summary, parsed.purpose, parsed.functions, parsed.key_details,
              some fi.type, some fi.contains⟩
      | .error e =>
        some ⟨"Analysis failed", "Error: " ++ e, [], [], none, none⟩

/-- The `detailed_analysis` mapping assembled by `analyze_project_structure`
(`analyze_project.py` lines 39-133; it is then stored as
`state.project_analysis["detailed_analysis"]`). The LLM collaborator is a
path- and attempt-indexed oracle. -/
def analyze_detailed (oracle : String → Nat → Except String String) (jitter : Nat → ℚ) :
    List (String × FileRecord) → List (String × AnalysisEntry)
  | [] => []
  | (p, fi) :: rest =>
    match analyzeFileStep (oracle p) jitter p fi with
    | none => analyze_detailed oracle jitter rest
    | some entry => (p, entry) :: analyze_detailed oracle jitter rest

/-- Keys of `detailed_analysis` all come from the parsed repository map. -/
theorem analyze_keys_subset (oracle : String → Nat → Except String String)
    (jitter : Nat → ℚ) (repo : List (String × FileRecord)) :
    ((analyze_detailed oracle jitter repo).map Prod.fst) ⊆ repo.map Prod.fst := by
  induction repo with
  | nil => simp [analyze_detailed]
  | cons hd tl ih =>
    obtain ⟨q, gi⟩ := hd
    intro x hx
    simp only [List.map_cons, List.mem_cons]
    simp only [analyze_detailed] at hx
    split at hx
    · exact Or.inr (ih hx)
    · simp only [List.map_cons, List.mem_cons] at hx
      rcases hx with rfl | hx
      · exact Or.inl rfl
      · exact Or.inr (ih hx)

/-! ## Claim theorems: analyze stage -/

/-- C8: a parsed file whose extracted symbol list is empty is skipped by the
Analyze stage entirely — its path is not a key of `detailed_analysis`,
neither as a result nor as a placeholder entry, for any LLM behavior. -/
theorem analyze_skips_symbolless
    (oracle : String → Nat → Except String String) (jitter : Nat → ℚ)
    (repo : List (String × FileRecord)) (p : String) (fi : FileRecord)
    (hmem : (p, fi) ∈ repo) (hsyms : fi.contains = [])
    (hkeys : (repo.map Prod.fst).Nodup) :
    p ∉ (analyze_detailed oracle jitter repo).map Prod.fst := by
  induction repo with
  | nil => cases hmem
  | cons hd tl ih =>
    obtain ⟨q, gi⟩ := hd
    simp only [List.map_cons, List.nodup_cons] at hkeys
    rcases List.mem_cons.mp hmem with heq | hmem'
    · cases heq
      have hstep : analyzeFileStep (oracle p) jitter p fi = none := by
        simp [analyzeFileStep, hsyms, List.isEmpty_nil]
      simp only [analyze_detailed, hstep]
      intro hmem2
      have := analyze_keys_subset oracle jitter tl hmem2
      exact hkeys.1 this
    · have hne : p ≠ q := by
        rintro rfl
        exact hkeys.1 (List.mem_map.mpr ⟨(p, fi), hmem', rfl⟩)
      simp only [analyze_detailed]
      split
      · exact ih hmem' hkeys.2
      · simp only [List.map_cons, List.mem_cons]
        rintro (rfl | hmem2)
        · exact hne rfl
        · exact ih hmem' hkeys.2 hmem2

/-- A symbol-less parsed file with non-trivial code length. -/
def nosymsRec : FileRecord :=
  ⟨"nosyms.py", "x = 1\ny = 2\nz = 3\nw = 4\nv = 5\nu = 6\nt = 7\ns = 8\nr = 9\nq = 10\n",
   "python", []⟩

/-- A two-file parsed repository whose first file has no symbols. -/
def analyzeDemoRepo : List (String × FileRecord) :=
  [("nosyms.py", nosymsRec),
   ("has.py", ⟨"has.py", "def f(): pass", "python", ["f"]⟩)]

/-- Witness for C8: in the concrete two-file repository the symbol-less
file is absent from the detailed analysis. -/
theorem analyze_skips_symbolless_witness :
    ("nosyms.py", nosymsRec) ∈ analyzeDemoRepo ∧
    nosymsRec.contains = [] ∧
    "nosyms.py" ∉ (analyze_detailed (fun _ _ => .ok "- f: ok") (fun _ => 0)
      analyzeDemoRepo).map Prod.fst :=
  ⟨by simp [analyzeDemoRepo],
   rfl,
   analyze_skips_symbolless (fun _ _ => .ok "- f: ok") (fun _ => 0)
     analyzeDemoRepo "nosyms.py" nosymsRec
     (by simp [analyzeDemoRepo]) rfl (by decide)⟩

/-- C9 counterexample: on a response from which no functions are extracted
(`""`) but with a nonempty symbol list, `parse_analysis_response` does
**not** leave `functions` empty — it falls back to symbol-derived entries. -/
theorem analysis_functions_fallback_counterexample :
    (rawAnalysisParsed "").functions = [] ∧
    (parse_analysis_response "" ["foo"]).functions =
      ["`foo()` - Function or class in this file"] ∧
    (parse_analysis_response "" ["foo"]).functions ≠ [] := by
  refine ⟨rfl, rfl, by decide⟩

/-- C9 amended: when no explicit purpose is extracted the purpose (and
summary) fall back to the generic placeholder text; when no functions are
extracted the `functions` field falls back to up to five symbol-derived
entries whenever the symbol list is nonempty, and is left empty only when
the symbol list is also empty. -/
theorem analysis_fallbacks (response : String) (symbols : List String) :
    ((rawAnalysisParsed response).purpose = "" →
      (parse_analysis_response response symbols).purpose =
          "This file is part of the application codebase." ∧
        (parse_analysis_response response symbols).summary =
          "This file is part of the application codebase.") ∧
    ((rawAnalysisParsed response).functions = [] →
      (parse_analysis_response response symbols).functions =
        if symbols.isEmpty then [] else fallbackFunctions symbols) := by
  constructor
  · intro hp
    rcases hraw : rawAnalysisParsed response with ⟨s0, p0, f0, k0⟩
    rw [hraw] at hp
    have hp0 : p0 = "" := hp
    subst hp0
    simp only [parse_analysis_response, hraw]
    split <;> simp
  · intro hf
    rcases hraw : rawAnalysisParsed response with ⟨s0, p0, f0, k0⟩
    rw [hraw] at hf
    have hf0 : f0 = [] := hf
    subst hf0
    simp only [parse_analysis_response, hraw]
    cases hs : symbols.isEmpty <;> simp [hs] <;> split <;> simp

/-- Witness for C9's amended theorem at the empty response. -/
theorem analysis_fallbacks_witness :
    ((parse_analysis_response "" ["foo"]).purpose =
        "This file is part of the application codebase." ∧
      (parse_analysis_response "" ["foo"]).summary =
        "This file is part of the application codebase.") ∧
    (parse_analysis_response "" ["foo"]).functions =
      if (["foo"] : List String).isEmpty then [] else fallbackFunctions ["foo"] :=
  ⟨(analysis_fallbacks "" ["foo"]).1 rfl, (analysis_fallbacks "" ["foo"]).2 rfl⟩

/-! ## Comment excision (`extract_names_and_clean`, clean phase)

`parse_code.py` lines 109-113 / `parse_code_memory.py` lines 131-135: the
tree-sitter traversal collects the byte ranges `[start, end)` of all
comment-typed nodes (in document order, hence ascending and disjoint —
comment tokens are leaves), and the code then deletes
`code_bytes[start:end]` for each range, iterating over
`sorted(comment_ranges, reverse=True)`. The collected ranges are modelled
by a decomposition of the byte string into alternating kept and comment
segments; the deletion loop is embedded byte-exactly. -/

/-- `del code_bytes[start:stop]` on a byte list (`start ≤ stop` in use). -/
def delSlice (bs : List UInt8) (start stop : Nat) : List UInt8 :=
  bs.take start ++ bs.drop stop

/-- Descending lexicographic order on `(start, end)` ranges:
`a` precedes `b` in `sorted(ranges, reverse=True)`. -/
def rangeDesc (a b : Nat × Nat) : Prop :=
  b.1 < a.1 ∨ (b.1 = a.1 ∧ b.2 ≤ a.2)

instance : DecidableRel rangeDesc :=
  fun a b => inferInstanceAs (Decidable (b.1 < a.1 ∨ (b.1 = a.1 ∧ b.2 ≤ a.2)))

instance : IsTotal (Nat × Nat) rangeDesc :=
  ⟨fun a b => by unfold rangeDesc; omega⟩

instance : IsTrans (Nat × Nat) rangeDesc :=
  ⟨fun a b c hab hbc => by unfold rangeDesc at *; omega⟩

instance : IsAntisymm (Nat × Nat) rangeDesc :=
  ⟨fun a b hab hba => by
    obtain ⟨a1, a2⟩ := a
    obtain ⟨b1, b2⟩ := b
    unfold rangeDesc at *
    simp only [Prod.mk.injEq]
    omega⟩

/-- `sorted(comment_ranges, reverse=True)`. -/
def sortRangesDesc (rs : List (Nat × Nat)) : List (Nat × Nat) :=
  rs.insertionSort rangeDesc

/-- The deletion loop: `for start, end in sorted(comment_ranges,
reverse=True): del code_bytes[start:end]`. -/
def removeCommentRanges (bs : List UInt8) (ranges : List (Nat × Nat)) : List UInt8 :=
  (sortRangesDesc ranges).foldl (fun acc r => delSlice acc r.1 r.2) bs

/-- The full byte string of a kept/comment segment decomposition. -/
def segsBytes (segs : List (List UInt8 × List UInt8)) : List UInt8 :=
  (segs.map (fun sc => sc.1 ++ sc.2)).flatten

/-- The non-comment bytes of a decomposition. -/
def segsKept (segs : List (List UInt8 × List UInt8)) : List UInt8 :=
  (segs.map (fun sc => sc.1)).flatten

/-- The comment byte ranges of a decomposition, in document order,
starting at byte offset `o`. -/
def commentRangesOf (o : Nat) : List (List UInt8 × List UInt8) → List (Nat × Nat)
  | [] => []
  | (k, c) :: rest =>
    (o + k.length, o + k.length + c.length) ::
      commentRangesOf (o + k.length + c.length) rest

/-- Deleting the document-order ranges from last to first removes exactly
the comment segments. -/
theorem foldDel_eq (segs : List (List UInt8 × List UInt8)) (tail : List UInt8) :
    ∀ p : List UInt8,
      ((commentRangesOf p.length segs).reverse).foldl
          (fun acc r => delSlice acc r.1 r.2) (p ++ segsBytes segs ++ tail) =
        p ++ segsKept segs ++ tail := by
  induction segs with
  | nil => intro p; simp [commentRangesOf, segsBytes, segsKept]
  | cons hd rest ih =>
    intro p
    obtain ⟨k, c⟩ := hd
    have hbytes : p ++ segsBytes ((k, c) :: rest) ++ tail =
        (p ++ k ++ c) ++ segsBytes rest ++ tail := by
      simp [segsBytes, List.append_assoc]
    have hlen : p.length + k.length + c.length = (p ++ k ++ c).length := by
      simp only [List.length_append]
    simp only [commentRangesOf, List.reverse_cons]
    rw [List.foldl_append, hbytes, hlen, ih (p ++ k ++ c)]
    simp only [List.foldl_cons, List.foldl_nil, delSlice]
    rw [List.append_assoc (p ++ k ++ c) (segsKept rest) tail]
    have htake : List.take (p.length + k.length)
        ((p ++ k ++ c) ++ (segsKept rest ++ tail)) = p ++ k := by
      rw [List.take_append_of_le_length (by simp)]
      exact List.take_left' (by simp)
    have hdrop : List.drop ((p ++ k ++ c).length)
        ((p ++ k ++ c) ++ (segsKept rest ++ tail)) = segsKept rest ++ tail :=
      List.drop_left' rfl
    rw [htake, hdrop]
    simp [segsKept, List.append_assoc]

/-- Every range of a decomposition starts at or after the base offset. -/
theorem commentRangesOf_start_ge (segs : List (List UInt8 × List UInt8)) :
    ∀ o r, r ∈ commentRangesOf o segs → o ≤ r.1 := by
  induction segs with
  | nil => intro o r hr; cases hr
  | cons hd rest ih =>
    obtain ⟨k, c⟩ := hd
    intro o r hr
    rcases List.mem_cons.mp hr with rfl | hr
    · simp
    · have := ih (o + k.length + c.length) r hr
      omega

/-- With nonempty comment segments, the document-order ranges have strictly
increasing starts. -/
theorem commentRangesOf_starts_mono (segs : List (List UInt8 × List UInt8))
    (hne : ∀ sc ∈ segs, sc.2 ≠ []) :
    ∀ o, List.Pairwise (fun a b : Nat × Nat => a.1 < b.1) (commentRangesOf o segs) := by
  induction segs with
  | nil => intro o; simp [commentRangesOf]
  | cons hd rest ih =>
    obtain ⟨k, c⟩ := hd
    intro o
    have hc : 0 < c.length := List.length_pos.mpr (hne (k, c) (by simp))
    refine List.Pairwise.cons ?_ (ih (fun sc hsc => hne sc (by simp [hsc])) _)
    intro r hr
    have := commentRangesOf_start_ge rest (o + k.length + c.length) r hr
    simp only
    omega

/-- A strictly-ascending range list reverse-sorts to its reverse. -/
theorem sortRangesDesc_of_ascending (rs : List (Nat × Nat))
    (h : List.Pairwise (fun a b : Nat × Nat => a.1 < b.1) rs) :
    sortRangesDesc rs = rs.reverse := by
  apply List.eq_of_perm_of_sorted (r := rangeDesc)
  · exact (List.perm_insertionSort _ _).trans (List.reverse_perm rs).symm
  · exact List.sorted_insertionSort _ _
  · rw [List.Sorted, List.pairwise_reverse]
    exact h.imp (fun hab => Or.inl hab)

/-- A single UTF-8-encoded code point, by byte patterns (RFC 3629: no
overlong forms, no surrogates, max U+10FFFF). -/
def isUtf8Char (c : List UInt8) : Bool :=
  match c with
  | [b1] => b1 < 0x80
  | [b1, b2] => 0xC2 ≤ b1 && b1 ≤ 0xDF && 0x80 ≤ b2 && b2 ≤ 0xBF
  | [b1, b2, b3] =>
    ((b1 == 0xE0 && 0xA0 ≤ b2) || (0xE1 ≤ b1 && b1 ≤ 0xEC && 0x80 ≤ b2) ||
      (b1 == 0xED && 0x80 ≤ b2 && b2 ≤ 0x9F) || (0xEE ≤ b1 && b1 ≤ 0xEF && 0x80 ≤ b2)) &&
    b2 ≤ 0xBF && 0x80 ≤ b3 && b3 ≤ 0xBF
  | [b1, b2, b3, b4] =>
    ((b1 == 0xF0 && 0x90 ≤ b2) || (0xF1 ≤ b1 && b1 ≤ 0xF3 && 0x80 ≤ b2) ||
      (b1 == 0xF4 && 0x80 ≤ b2 && b2 ≤ 0x8F)) &&
    b2 ≤ 0xBF && 0x80 ≤ b3 && b3 ≤ 0xBF && 0x80 ≤ b4 && b4 ≤ 0xBF
  | _ => false

/-- A byte list decodes as UTF-8: it is a concatenation of encoded code
points. -/
def Utf8Valid (bs : List UInt8) : Prop :=
  ∃ cs : List (List UInt8), (∀ c ∈ cs, isUtf8Char c = true) ∧ bs = cs.flatten

/-- UTF-8 validity is closed under concatenation. -/
theorem utf8Valid_append {a b : List UInt8} (ha : Utf8Valid a) (hb : Utf8Valid b) :
    Utf8Valid (a ++ b) := by
  obtain ⟨cs₁, h₁, rfl⟩ := ha
  obtain ⟨cs₂, h₂, rfl⟩ := hb
  refine ⟨cs₁ ++ cs₂, ?_, (List.flatten_append cs₁ cs₂).symm⟩
  intro c hc
  rcases List.mem_append.mp hc with hc | hc
  · exact h₁ c hc
  · exact h₂ c hc

/-- UTF-8 validity is closed under flattening. -/
theorem utf8Valid_flatten (ls : List (List UInt8)) (h : ∀ l ∈ ls, Utf8Valid l) :
    Utf8Valid ls.flatten := by
  induction ls with
  | nil => exact ⟨[], by simp, rfl⟩
  | cons hd tl ih =>
    simp only [List.flatten_cons]
    exact utf8Valid_append (h hd (by simp)) (ih (fun l hl => h l (by simp [hl])))

/-! ## Claim theorem: comment excision -/

/-- C2: for any source byte string decomposed into alternating kept and
comment segments (the comment segments being the byte ranges of the
comment-typed nodes, nonempty and disjoint as tree-sitter produces them),
the cleaning loop — which deletes the collected ranges in descending
start-offset order — returns exactly the original bytes with the comment
ranges removed, preserving all non-comment bytes verbatim; and if every
kept segment is valid UTF-8 (ranges on code-point boundaries), the result
is valid UTF-8. -/
theorem clean_removes_exactly_comments
    (segs : List (List UInt8 × List UInt8)) (tail : List UInt8)
    (hne : ∀ sc ∈ segs, sc.2 ≠ []) :
    sortRangesDesc (commentRangesOf 0 segs) = (commentRangesOf 0 segs).reverse ∧
    removeCommentRanges (segsBytes segs ++ tail) (commentRangesOf 0 segs) =
      segsKept segs ++ tail ∧
    ((∀ sc ∈ segs, Utf8Valid sc.1) → Utf8Valid tail →
      Utf8Valid (removeCommentRanges (segsBytes segs ++ tail)
        (commentRangesOf 0 segs))) := by
  have hsort : sortRangesDesc (commentRangesOf 0 segs) =
      (commentRangesOf 0 segs).reverse :=
    sortRangesDesc_of_ascending _ (commentRangesOf_starts_mono segs hne 0)
  have hmain : removeCommentRanges (segsBytes segs ++ tail)
      (commentRangesOf 0 segs) = segsKept segs ++ tail := by
    unfold removeCommentRanges
    rw [hsort]
    have := foldDel_eq segs tail []
    simpa using this
  refine ⟨hsort, hmain, ?_⟩
  intro hk ht
  rw [hmain]
  refine utf8Valid_append ?_ ht
  apply utf8Valid_flatten
  intro l hl
  obtain ⟨sc, hsc, rfl⟩ := List.mem_map.mp hl
  exact hk sc hsc

/-- Witness for C2: bytes `"ab#c" ++ "d"` with the comment range `[2,4)`
(`"#c"`) removed give `"abd"`, still valid UTF-8. -/
theorem clean_removes_exactly_comments_witness :
    removeCommentRanges [97, 98, 35, 99, 100] [(2, 4)] = [97, 98, 100] ∧
    Utf8Valid [97, 98, 100] := by
  have h := clean_removes_exactly_comments [([97, 98], [35, 99])] [100] (by decide)
  refine ⟨h.2.1, ?_⟩
  refine h.2.2 ?_ ⟨[[100]], by decide, rfl⟩
  intro sc hsc
  simp only [List.mem_singleton] at hsc
  subst hsc
  exact ⟨[[97], [98]], by decide, rfl⟩

end Rep
